import Mathlib

/-!
Shallow embedding of the queue-rotation and conflict-resolution core of the
maid-tg-bot repository, together with proofs of the specification claims.

The embedded source files are:
* `src/handlers/other_core_modules/resolve_conflict.py`
  (`get_later_time`, `skip_chore_today`, `inform_and_resolve`, `swap_users`);
* `src/handlers/queue_config/reorder_queue.py` (`reorder_queue`).

A queue is stored in the database as an array of member documents, each of
which carries `user_id`, `name` and a `current_turn` flag.  The APScheduler
job store is modelled as an association list from job id to run date, and
message sends are collected in lists.
-/

namespace MaidBot

/-- A member document of a queue array: `{"user_id": ..., "name": ...,
"current_turn": ...}`. -/
structure Member where
  user_id : Int
  name : String
  current_turn : Bool
deriving DecidableEq

/-- Number of members of the queue whose `current_turn` flag is set. -/
def countTurn (q : List Member) : Nat :=
  (q.filter (fun m => m.current_turn)).length

/-- Index of the first member whose `current_turn` flag is set. -/
def holderIdx? (q : List Member) : Option Nat :=
  q.findIdx? (fun m => m.current_turn)

/-- Turn flag of the member at index `i` (`false` out of range). -/
def flagAt (q : List Member) (i : Nat) : Bool :=
  (q[i]?.map Member.current_turn).getD false

/-- Modelled from the spec: the helper `get_current_turn` is imported by
`resolve_conflict.py` from `utils.get_db_data` but its definition is not under
`src/`.  Per the spec, the turn holder is the single member with
`current_turn = true`; the helper returns that member's user id, name and
index in the queue array. -/
def get_current_turn (q : List Member) : Option (Int × String × Nat) :=
  match q.findIdx? (fun m => m.current_turn) with
  | none => none
  | some i =>
    match q[i]? with
    | none => none
    | some m => some (m.user_id, m.name, i)

/-- The statement `q_array[i]["current_turn"] = b`: mutate the flag of the
member document at index `i` in place (out-of-range indices leave the list
unchanged, matching that the source only uses in-range indices). -/
def setTurnAt : List Member → Nat → Bool → List Member
  | [], _, _ => []
  | m :: rest, 0, b => { m with current_turn := b } :: rest
  | m :: rest, i + 1, b => m :: setTurnAt rest i b

/-- The Python simultaneous assignment
`q_array[i], q_array[j] = q_array[j], q_array[i]` for in-range indices. -/
def swapPos {α : Type} (l : List α) (i j : Nat) : List α :=
  match l[i]?, l[j]? with
  | some x, some y => (l.set i y).set j x
  | _, _ => l

/-- The lookup loop of `swap_users` (resolve_conflict.py lines 177-180):
`user_pos` is assigned on every match, so the last matching index wins. -/
def find_user_pos_aux (uid : Int) : List Member → Nat → Option Nat → Option Nat
  | [], _, acc => acc
  | m :: rest, i, acc =>
      find_user_pos_aux uid rest (i + 1) (if m.user_id = uid then some i else acc)

/-- Index of the responder in the queue array (last match, `none` if the
responder is not in the array). -/
def find_user_pos (q : List Member) (uid : Int) : Option Nat :=
  find_user_pos_aux uid q 0 none

/-- The turn-advancement step of `swap_users` (resolve_conflict.py lines
200-202): clear `current_turn` at the holder's index `i` and set it at
`(i + 1) % len(q_array)`.  This is the operation the spec calls `advance`. -/
def advance (q : List Member) : List Member :=
  match holderIdx? q with
  | none => q
  | some i => setTurnAt (setTurnAt q i false) ((i + 1) % q.length) true

/-! The APScheduler job store (`jobstore="mongo"`), modelled as an association
list from job id to run date.  Run dates are minutes on an abstract clock. -/

/-- `HOURS = 2` (resolve_conflict.py line 33): the conflict horizon. -/
def HOURS : Nat := 2

/-- `get_later_time` (resolve_conflict.py lines 36-41): the time `HOURS` from
now, on a clock counted in minutes. -/
def get_later_time (now : Nat) : Nat :=
  now + HOURS * 60

/-- The scheduler job id `f"resolving_{queue_name}_{group_chat_id}"`. -/
def resolvingKey (queue_name : String) (chat : Int) : String :=
  "resolving_" ++ queue_name ++ "_" ++ toString chat

/-- `sched.add_job(..., id=key, replace_existing=True)`: any job already
stored under the same id is replaced, never duplicated. -/
def add_job_replace (jobs : List (String × Nat)) (key : String) (runDate : Nat) :
    List (String × Nat) :=
  (key, runDate) :: jobs.filter (fun p => p.1 ≠ key)

/-- Number of stored jobs with the given id. -/
def countKey (jobs : List (String × Nat)) (key : String) : Nat :=
  (jobs.filter (fun p => p.1 = key)).length

/-! Message texts.  The wording is abbreviated (and punctuation simplified)
from the source; what matters for the claims is which message is sent, to
whom, how many times, and which names it mentions. -/

/-- Reply of `inform_and_resolve` when the initiator has no group chat
(resolve_conflict.py lines 115-121): the initiator must add the bot to a
group and then send the reason again. -/
def noChannelText : String :=
  "Looks like you dont have a group chat. Please create a group and add me "
    ++ "there. Once I am added to the group, send me the reason again."

/-- Private acknowledgement of `inform_and_resolve`
(resolve_conflict.py lines 147-149). -/
def thankYouText : String :=
  "Thank you. Lets try and work this out in your group chat."

/-- Escalation broadcast of `inform_and_resolve`
(resolve_conflict.py lines 151-157). -/
def escalationText (user_name queue_name reason : String) : String :=
  "Hey, turns out " ++ user_name ++ " cant do the chore in " ++ queue_name
    ++ " queue today and they provided the following reason: " ++ reason
    ++ " Who can do it today instead?"

/-- Rejection sent to a responder who is not in the queue array
(resolve_conflict.py lines 185-188). -/
def notMemberText : String :=
  "You are not a part of the roommates group, you should get in touch with "
    ++ "others and get the invite link."

/-- Rejection sent to a responder who is the current turn holder
(resolve_conflict.py lines 194-196). -/
def selfSwapText (user_name : String) : String :=
  "I am sorry, but you cant swap with yourself, " ++ user_name ++ "-san."

/-- Success reply of `swap_users` (resolve_conflict.py lines 221-226). -/
def successText (user_name ct_name queue_name : String) : String :=
  "Yaaay, thank you, " ++ user_name ++ "! You have swapped places with "
    ++ ct_name ++ ". " ++ ct_name
    ++ " will now do the chore when it is your turn. You can check out the "
    ++ "new order in the " ++ queue_name ++ " queue."

/-- Skip notice of `skip_chore_today` (resolve_conflict.py lines 66-71),
naming the queue and the member whose turn it still is. -/
def skipText (user_name queue_name : String) : String :=
  "Well, since no one has replied I can do it, i will assume that the chore "
    ++ "in " ++ queue_name ++ " queue is incomplete and skip it for today. "
    ++ "It is still " ++ user_name ++ "s turn to do the chore."

/-! The aiogram finite-state-machine conversation state.  `state.update_data`
writes a key into a per-user store; `state.finish()` resets the state and
clears the store. -/

/-- The FSM states touched by the embedded handlers. -/
inductive Phase where
  | idle
  | waiting_for_reason
deriving DecidableEq

/-- Conversation state: the FSM phase plus the key-value data store. -/
structure ConvState where
  phase : Phase
  store : List (String × String)
deriving DecidableEq

/-- `state.update_data(k=v)`: insert or overwrite key `k` in the store. -/
def fsm_update (store : List (String × String)) (k v : String) :
    List (String × String) :=
  (k, v) :: store.filter (fun p => p.1 ≠ k)

/-- `state.get_data()[k]` as an optional lookup. -/
def lookupStore (store : List (String × String)) (k : String) : Option String :=
  (store.find? (fun p => p.1 = k)).map (fun p => p.2)

/-- Result of running the `inform_and_resolve` handler. -/
structure InformResult where
  conv : ConvState
  jobs : List (String × Nat)
  initiatorMsgs : List String
  groupMsgs : List String
deriving DecidableEq

/-- The `inform_and_resolve` handler (resolve_conflict.py lines 98-159),
which runs in the `waiting_for_reason` state when the initiator sends the
reason text.  If the initiator has no group chat it only replies with
`noChannelText` and returns early, leaving the conversation state, the data
store and the scheduler untouched.  Otherwise it arms (replacing any job with
the same id) the fallback job for `HOURS` from now, acknowledges the
initiator, broadcasts the escalation to the group chat and finishes the FSM
state. -/
def inform_and_resolve (now : Nat) (reason user_name : String)
    (group_chat : Option Int) (conv : ConvState) (jobs : List (String × Nat)) :
    InformResult :=
  match group_chat with
  | none => ⟨conv, jobs, [noChannelText], []⟩
  | some chat =>
    match lookupStore conv.store "queue_name" with
    | none => ⟨conv, jobs, [], []⟩
    | some queue_name =>
      let jobs2 := add_job_replace jobs (resolvingKey queue_name chat)
        (get_later_time now)
      ⟨⟨Phase.idle, []⟩, jobs2, [thankYouText],
        [escalationText user_name queue_name reason]⟩

/-- Outcome tag of the `swap_users` handler. -/
inductive SwapOutcome where
  | noHolder
  | notMember
  | selfSwap
  | swapped
deriving DecidableEq

/-- Result of running the `swap_users` handler: the queue array afterwards,
the scheduler jobs afterwards, whether the queue was persisted with
`queues.update_one`, whether `sched.remove_job` raised `JobLookupError`
(caught and logged, line 216-217), the replies sent, and the outcome tag. -/
structure SwapResult where
  queue : List Member
  jobs : List (String × Nat)
  persisted : Bool
  cancelFailed : Bool
  replies : List String
  outcome : SwapOutcome
deriving DecidableEq

/-- The `swap_users` handler (resolve_conflict.py lines 162-228).  The
responder `uid` pressed the button for `queue_name`; `chat` is the group chat
of the responder's team.  A responder missing from the queue array or equal
to the current turn holder is rejected with a message and nothing else
happens.  Otherwise the turn flag is cleared on the holder document and set
on the document at `(ct_pos + 1) % len`, the holder and the responder are
swapped, the queue is persisted, and the fallback job is removed if present
(`JobLookupError` is caught and only logged). -/
def swap_users (q : List Member) (uid : Int) (user_first_name : String)
    (chat : Int) (queue_name : String) (jobs : List (String × Nat)) :
    SwapResult :=
  match get_current_turn q with
  | none => ⟨q, jobs, false, false, [], SwapOutcome.noHolder⟩
  | some (_, ct_name, ct_pos) =>
    match find_user_pos q uid with
    | none => ⟨q, jobs, false, false, [notMemberText], SwapOutcome.notMember⟩
    | some user_pos =>
      if ct_pos = user_pos then
        ⟨q, jobs, false, false, [selfSwapText user_first_name],
          SwapOutcome.selfSwap⟩
      else
        let q2 := swapPos
          (setTurnAt (setTurnAt q ct_pos false) ((ct_pos + 1) % q.length) true)
          ct_pos user_pos
        let key := resolvingKey queue_name chat
        ⟨q2, jobs.filter (fun p => p.1 ≠ key), true,
          !(jobs.any (fun p => p.1 = key)),
          [successText user_first_name ct_name queue_name],
          SwapOutcome.swapped⟩

/-- The queue mutation of the `reorder_queue` handler
(reorder_queue.py lines 89-98): if `from_position == to_position` nothing is
changed (the handler only sends a joke reply); otherwise
`item = queue_array.pop(from_position)` followed by
`queue_array.insert(to_position, item)`. -/
def reorder_queue (q : List Member) (from_position to_position : Nat) :
    List Member :=
  if from_position = to_position then q
  else
    match q[from_position]? with
    | none => q
    | some item => (q.eraseIdx from_position).insertIdx to_position item

/-! The fallback (timeout) path.  A `trigger="date"` APScheduler job runs
once at its run date and is removed from the job store; its action here is
`skip_chore_today` (resolve_conflict.py lines 44-71), which only sends a
sticker and the skip notice to the group chat. -/

/-- System state threaded through the fallback firing: the queue array, the
scheduler jobs and the messages sent to the group chat so far. -/
structure SysState where
  queue : List Member
  jobs : List (String × Nat)
  groupTexts : List String
  groupStickers : List String
deriving DecidableEq

/-- The deadline elapsing: the scheduler runs the stored
`skip_chore_today(group_chat_id, user_name, queue_name)` job and drops it
from the store.  `skip_chore_today` sends one sticker and one text naming
`user_name` and `queue_name`; it never touches the queue array. -/
def timeout_fire (st : SysState) (key : String) (user_name queue_name : String) :
    SysState :=
  { queue := st.queue
    jobs := st.jobs.filter (fun p => p.1 ≠ key)
    groupTexts := st.groupTexts ++ [skipText user_name queue_name]
    groupStickers := st.groupStickers ++ ["WHATEVER"] }

/-! Normal forms used in the proofs: a queue with a unique holder is its
member data together with the holder index. -/

/-- The member data of a queue, forgetting the turn flags. -/
def strip (q : List Member) : List (Int × String) :=
  q.map (fun m => (m.user_id, m.name))

/-- Queue with the given member data and no turn flag set. -/
def blankQ (ms : List (Int × String)) : List Member :=
  ms.map (fun p => ⟨p.1, p.2, false⟩)

/-- Queue with the given member data whose only turn flag is at index `i`. -/
def mkQueue (ms : List (Int × String)) (i : Nat) : List Member :=
  setTurnAt (blankQ ms) i true

/-- Where index `k` ends up under the exchange of positions `a` and `b`. -/
def swapIdx (a b k : Nat) : Nat :=
  if k = a then b else if k = b then a else k

/-! Concrete data for witnesses and counterexamples: the Scenario A queue
with Ann (holder), Bo and Cy. -/

/-- Scenario A queue: Ann holds the turn. -/
def demoQ : List Member :=
  [⟨1, "Ann", true⟩, ⟨2, "Bo", false⟩, ⟨3, "Cy", false⟩]

/-- The queue produced by a valid substitution of Bo (user id 2) into
`demoQ`: order Bo, Ann, Cy, and the turn flag travelled with the member
document of Bo into index 0. -/
def demoSwapped : List Member :=
  [⟨2, "Bo", true⟩, ⟨1, "Ann", false⟩, ⟨3, "Cy", false⟩]

/-! Basic lemmas about `setTurnAt`, `swapPos`, `flagAt` and `countTurn`. -/

theorem setTurnAt_length (q : List Member) (i : Nat) (b : Bool) :
    (setTurnAt q i b).length = q.length := by
  induction q generalizing i with
  | nil => rfl
  | cons m rest ih => cases i <;> simp [setTurnAt, ih]

theorem setTurnAt_getElem_self (q : List Member) (i : Nat) (b : Bool) :
    (setTurnAt q i b)[i]? = q[i]?.map (fun m => { m with current_turn := b }) := by
  induction q generalizing i with
  | nil => cases i <;> rfl
  | cons m rest ih =>
    cases i with
    | zero => simp [setTurnAt]
    | succ n => simpa [setTurnAt] using ih n

theorem setTurnAt_getElem_ne (q : List Member) (i j : Nat) (b : Bool)
    (h : j ≠ i) : (setTurnAt q i b)[j]? = q[j]? := by
  induction q generalizing i j with
  | nil => rfl
  | cons m rest ih =>
    cases i with
    | zero =>
      cases j with
      | zero => exact absurd rfl h
      | succ n => simp [setTurnAt]
    | succ k =>
      cases j with
      | zero => simp [setTurnAt]
      | succ n =>
        simpa [setTurnAt] using ih k n (fun hh => h (by omega))

theorem flagAt_cons_zero (m : Member) (q : List Member) :
    flagAt (m :: q) 0 = m.current_turn := by
  simp [flagAt]

theorem flagAt_cons_succ (m : Member) (q : List Member) (i : Nat) :
    flagAt (m :: q) (i + 1) = flagAt q i := by
  simp [flagAt]

theorem countTurn_nil : countTurn [] = 0 := rfl

theorem countTurn_cons (m : Member) (q : List Member) :
    countTurn (m :: q) = cond m.current_turn 1 0 + countTurn q := by
  cases h : m.current_turn
  · simp [countTurn, List.filter, h]
  · simp [countTurn, List.filter, h]; omega

theorem countTurn_setTurnAt (q : List Member) (i : Nat) (b : Bool)
    (h : i < q.length) :
    countTurn (setTurnAt q i b) + cond (flagAt q i) 1 0 =
      countTurn q + cond b 1 0 := by
  induction q generalizing i with
  | nil => simp at h
  | cons m rest ih =>
    cases i with
    | zero =>
      simp only [setTurnAt, countTurn_cons, flagAt_cons_zero]
      cases m.current_turn <;> cases b <;> simp <;> omega
    | succ n =>
      have hn : n < rest.length := by simpa using h
      simp only [setTurnAt, countTurn_cons, flagAt_cons_succ]
      have := ih n hn
      omega

theorem countTurn_set (q : List Member) (i : Nat) (m : Member)
    (h : i < q.length) :
    countTurn (q.set i m) + cond (flagAt q i) 1 0 =
      countTurn q + cond m.current_turn 1 0 := by
  induction q generalizing i with
  | nil => simp at h
  | cons x rest ih =>
    cases i with
    | zero =>
      simp only [List.set, countTurn_cons, flagAt_cons_zero]
      cases x.current_turn <;> cases m.current_turn <;> simp <;> omega
    | succ n =>
      have hn : n < rest.length := by simpa using h
      simp only [List.set, countTurn_cons, flagAt_cons_succ]
      have := ih n hn
      omega

theorem flagAt_set_ne (q : List Member) (i j : Nat) (m : Member) (h : j ≠ i) :
    flagAt (q.set i m) j = flagAt q j := by
  unfold flagAt
  rw [List.getElem?_set_ne (fun hh => h hh.symm)]

theorem flagAt_eq_of_getElem (q : List Member) (i : Nat) (m : Member)
    (h : q[i]? = some m) : flagAt q i = m.current_turn := by
  simp [flagAt, h]

theorem countTurn_swapPos (q : List Member) (a b : Nat) (hab : a ≠ b)
    (ha : a < q.length) (hb : b < q.length) :
    countTurn (swapPos q a b) = countTurn q := by
  have hxa : q[a]? = some q[a] := List.getElem?_eq_getElem ha
  have hxb : q[b]? = some q[b] := List.getElem?_eq_getElem hb
  unfold swapPos
  rw [hxa, hxb]
  show countTurn ((q.set a q[b]).set b q[a]) = countTurn q
  have h1 : countTurn ((q.set a q[b]).set b q[a]) + cond (flagAt (q.set a q[b]) b) 1 0 =
      countTurn (q.set a q[b]) + cond (q[a]).current_turn 1 0 :=
    countTurn_set _ b _ (by simpa using hb)
  have h2 : countTurn (q.set a q[b]) + cond (flagAt q a) 1 0 =
      countTurn q + cond (q[b]).current_turn 1 0 :=
    countTurn_set _ a _ ha
  have hfb : flagAt (q.set a q[b]) b = flagAt q b :=
    flagAt_set_ne _ _ _ _ (fun hh => hab hh.symm)
  have hfa : flagAt q a = (q[a]).current_turn := flagAt_eq_of_getElem _ _ _ hxa
  have hfb2 : flagAt q b = (q[b]).current_turn := flagAt_eq_of_getElem _ _ _ hxb
  rw [hfb, hfb2] at h1
  rw [hfa] at h2
  omega

/-! Lemmas about the normal form `mkQueue`. -/

theorem strip_length (q : List Member) : (strip q).length = q.length := by
  simp [strip]

theorem blankQ_length (ms : List (Int × String)) :
    (blankQ ms).length = ms.length := by
  simp [blankQ]

theorem mkQueue_length (ms : List (Int × String)) (i : Nat) :
    (mkQueue ms i).length = ms.length := by
  simp [mkQueue, setTurnAt_length, blankQ_length]

theorem strip_setTurnAt (q : List Member) (i : Nat) (b : Bool) :
    strip (setTurnAt q i b) = strip q := by
  induction q generalizing i with
  | nil => rfl
  | cons m rest ih =>
    cases i with
    | zero => simp [setTurnAt, strip]
    | succ n => simp only [setTurnAt, strip, List.map_cons]; simpa [strip] using ih n

theorem strip_blankQ (ms : List (Int × String)) : strip (blankQ ms) = ms := by
  induction ms with
  | nil => rfl
  | cons p rest ih => simp [strip, blankQ] at ih ⊢; exact ih

theorem strip_mkQueue (ms : List (Int × String)) (i : Nat) :
    strip (mkQueue ms i) = ms := by
  rw [mkQueue, strip_setTurnAt, strip_blankQ]

theorem blankQ_getElem (ms : List (Int × String)) (k : Nat) :
    (blankQ ms)[k]? = ms[k]?.map (fun p => ⟨p.1, p.2, false⟩) := by
  simp [blankQ]

theorem flagAt_oob (q : List Member) (k : Nat) (h : q.length ≤ k) :
    flagAt q k = false := by
  simp [flagAt, List.getElem?_eq_none h]

theorem flagAt_blankQ (ms : List (Int × String)) (k : Nat) :
    flagAt (blankQ ms) k = false := by
  rw [flagAt, blankQ_getElem]
  cases ms[k]? <;> simp

theorem countTurn_blankQ (ms : List (Int × String)) :
    countTurn (blankQ ms) = 0 := by
  induction ms with
  | nil => rfl
  | cons p rest ih => simpa [blankQ, countTurn_cons] using ih

theorem mkQueue_getElem (ms : List (Int × String)) (i k : Nat) :
    (mkQueue ms i)[k]? = ms[k]?.map (fun p => ⟨p.1, p.2, decide (k = i)⟩) := by
  by_cases hk : k = i
  · subst hk
    rw [mkQueue, setTurnAt_getElem_self, blankQ_getElem]
    cases ms[k]? <;> simp
  · rw [mkQueue, setTurnAt_getElem_ne _ _ _ _ hk, blankQ_getElem]
    cases ms[k]? <;> simp [hk]

theorem flagAt_mkQueue_lt (ms : List (Int × String)) (i k : Nat)
    (hk : k < ms.length) : flagAt (mkQueue ms i) k = decide (k = i) := by
  rw [flagAt, mkQueue_getElem, List.getElem?_eq_getElem hk]
  simp

theorem flagAt_mkQueue (ms : List (Int × String)) (i k : Nat)
    (hi : i < ms.length) : flagAt (mkQueue ms i) k = decide (k = i) := by
  by_cases hk : k < ms.length
  · exact flagAt_mkQueue_lt ms i k hk
  · rw [flagAt_oob _ _ (by rw [mkQueue_length]; omega)]
    have : k ≠ i := by omega
    simp [this]

theorem countTurn_mkQueue (ms : List (Int × String)) (i : Nat)
    (hi : i < ms.length) : countTurn (mkQueue ms i) = 1 := by
  have h := countTurn_setTurnAt (blankQ ms) i true (by rw [blankQ_length]; exact hi)
  rw [flagAt_blankQ, countTurn_blankQ] at h
  simpa [mkQueue] using h

theorem holderIdx_of_unique_flag (q : List Member) (h : Nat)
    (hlt : h < q.length) (hflag : ∀ k, flagAt q k = decide (k = h)) :
    holderIdx? q = some h := by
  unfold holderIdx?
  rw [List.findIdx?_eq_some_iff_getElem]
  refine ⟨hlt, ?_, ?_⟩
  · have hh := hflag h
    rw [flagAt, List.getElem?_eq_getElem hlt] at hh
    simpa using hh
  · intro j hj
    have hjq := hflag j
    have hjl : j < q.length := Nat.lt_trans hj hlt
    rw [flagAt, List.getElem?_eq_getElem hjl] at hjq
    have hne : j ≠ h := Nat.ne_of_lt hj
    simp [hne] at hjq
    simp [hjq]

theorem holderIdx_mkQueue (ms : List (Int × String)) (i : Nat)
    (hi : i < ms.length) : holderIdx? (mkQueue ms i) = some i := by
  exact holderIdx_of_unique_flag _ i (by rw [mkQueue_length]; exact hi)
    (fun k => flagAt_mkQueue ms i k hi)

theorem countTurn_zero_blank (q : List Member) (h : countTurn q = 0) :
    q = blankQ (strip q) := by
  induction q with
  | nil => rfl
  | cons m rest ih =>
    rw [countTurn_cons] at h
    have hm : m.current_turn = false := by
      cases hmc : m.current_turn
      · rfl
      · rw [hmc] at h; simp at h
    have hr : countTurn rest = 0 := by
      rw [hm] at h; simpa using h
    cases m with
    | mk uid nm fl =>
      simp only at hm
      subst hm
      simp only [strip, blankQ, List.map_cons]
      rw [← strip, ← blankQ, ← ih hr]

/-- A queue with exactly one turn flag is its member data with the flag at
the holder index. -/
theorem repr_of_countTurn_one (q : List Member) (hq : countTurn q = 1) :
    ∃ i, i < q.length ∧ holderIdx? q = some i ∧ q = mkQueue (strip q) i := by
  induction q with
  | nil => simp [countTurn] at hq
  | cons m rest ih =>
    rw [countTurn_cons] at hq
    cases hmc : m.current_turn with
    | true =>
      rw [hmc] at hq
      have hr : countTurn rest = 0 := by simpa using hq
      refine ⟨0, by simp, ?_, ?_⟩
      · simp [holderIdx?, List.findIdx?_cons, hmc]
      · cases m with
        | mk uid nm fl =>
          simp only at hmc
          subst hmc
          simp only [mkQueue, strip, blankQ, List.map_cons, setTurnAt]
          rw [← strip, ← blankQ, ← countTurn_zero_blank rest hr]
    | false =>
      rw [hmc] at hq
      have hr : countTurn rest = 1 := by simpa using hq
      obtain ⟨i, hi, hidx, hrepr⟩ := ih hr
      refine ⟨i + 1, by simpa using hi, ?_, ?_⟩
      · rw [holderIdx?] at hidx ⊢
        rw [List.findIdx?_cons, hmc]
        simp only [Bool.false_eq_true, if_false, List.findIdx?_start_succ, hidx,
          Option.map_some']
      · cases m with
        | mk uid nm fl =>
          simp only at hmc
          subst hmc
          simp only [mkQueue, strip, blankQ, List.map_cons, setTurnAt]
          rw [← strip, ← blankQ, ← mkQueue]
          rw [← hrepr]

/-! Lemmas about `advance`. -/

theorem setTurnAt_setTurnAt (q : List Member) (i : Nat) (b c : Bool) :
    setTurnAt (setTurnAt q i b) i c = setTurnAt q i c := by
  induction q generalizing i with
  | nil => rfl
  | cons m rest ih =>
    cases i with
    | zero => simp [setTurnAt]
    | succ n => simp [setTurnAt, ih]

theorem setTurnAt_blankQ_false (ms : List (Int × String)) (i : Nat) :
    setTurnAt (blankQ ms) i false = blankQ ms := by
  induction ms generalizing i with
  | nil => rfl
  | cons p rest ih =>
    cases i with
    | zero => simp [blankQ, setTurnAt]
    | succ n => simpa [blankQ, setTurnAt] using ih n

theorem advance_mkQueue (ms : List (Int × String)) (i : Nat)
    (hi : i < ms.length) :
    advance (mkQueue ms i) = mkQueue ms ((i + 1) % ms.length) := by
  unfold advance
  rw [holderIdx_mkQueue ms i hi]
  show setTurnAt (setTurnAt (mkQueue ms i) i false)
      ((i + 1) % (mkQueue ms i).length) true = mkQueue ms ((i + 1) % ms.length)
  rw [mkQueue_length, mkQueue, setTurnAt_setTurnAt, setTurnAt_blankQ_false, mkQueue]

theorem advance_iterate_mkQueue (ms : List (Int × String)) (n i : Nat)
    (hi : i < ms.length) :
    advance^[n] (mkQueue ms i) = mkQueue ms ((i + n) % ms.length) := by
  induction n generalizing i with
  | zero => simp [Nat.mod_eq_of_lt hi]
  | succ n ih =>
    have hN : 0 < ms.length := by omega
    rw [Function.iterate_succ_apply, advance_mkQueue ms i hi,
      ih _ (Nat.mod_lt _ (by omega))]
    congr 1
    rw [Nat.mod_add_mod]
    congr 1
    omega

/-! Lemmas about `find_user_pos`. -/

theorem find_user_pos_aux_some (uid : Int) (q : List Member) :
    ∀ (i : Nat) (acc : Option Nat) (p : Nat),
      find_user_pos_aux uid q i acc = some p →
      acc = some p ∨
        ∃ k, k < q.length ∧ p = i + k ∧ q[k]?.map Member.user_id = some uid := by
  induction q with
  | nil =>
    intro i acc p h
    exact Or.inl h
  | cons m rest ih =>
    intro i acc p h
    simp only [find_user_pos_aux] at h
    rcases ih (i + 1) _ p h with hacc | ⟨k, hk, hp, hid⟩
    · by_cases hm : m.user_id = uid
      · rw [if_pos hm] at hacc
        refine Or.inr ⟨0, by simp, ?_, by simp [hm]⟩
        cases hacc
        omega
      · rw [if_neg hm] at hacc
        exact Or.inl hacc
    · exact Or.inr ⟨k + 1, by simpa using hk, by omega, by simpa using hid⟩

theorem find_user_pos_some (q : List Member) (uid : Int) (p : Nat)
    (h : find_user_pos q uid = some p) :
    p < q.length ∧ q[p]?.map Member.user_id = some uid := by
  rcases find_user_pos_aux_some uid q 0 none p h with h' | ⟨k, hk, hp, hid⟩
  · cases h'
  · constructor
    · omega
    · have : p = k := by omega
      rw [this]
      exact hid

theorem find_user_pos_aux_none (uid : Int) (q : List Member) :
    ∀ (i : Nat) (acc : Option Nat),
      find_user_pos_aux uid q i acc = none ↔
        acc = none ∧ ∀ m ∈ q, m.user_id ≠ uid := by
  induction q with
  | nil =>
    intro i acc
    simp [find_user_pos_aux]
  | cons m rest ih =>
    intro i acc
    simp only [find_user_pos_aux, ih, List.mem_cons]
    constructor
    · rintro ⟨hacc, hall⟩
      by_cases hm : m.user_id = uid
      · rw [if_pos hm] at hacc
        cases hacc
      · rw [if_neg hm] at hacc
        refine ⟨hacc, ?_⟩
        rintro x (rfl | hx)
        · exact hm
        · exact hall x hx
    · rintro ⟨hacc, hall⟩
      have hm : m.user_id ≠ uid := hall m (Or.inl rfl)
      rw [if_neg hm]
      exact ⟨hacc, fun x hx => hall x (Or.inr hx)⟩

theorem find_user_pos_none_iff (q : List Member) (uid : Int) :
    find_user_pos q uid = none ↔ ∀ m ∈ q, m.user_id ≠ uid := by
  rw [find_user_pos, find_user_pos_aux_none]
  simp

/-! Permutation lemmas for `reorder_queue`. -/

theorem perm_insertIdx {α : Type} (a : α) :
    ∀ (n : Nat) (l : List α), n ≤ l.length → (l.insertIdx n a).Perm (a :: l)
  | 0, l, _ => by simp
  | n + 1, [], h => by simp at h
  | n + 1, x :: l, h => by
    rw [List.insertIdx_succ_cons]
    exact ((perm_insertIdx a n l (by simpa using h)).cons x).trans
      (List.Perm.swap a x l)

theorem perm_cons_eraseIdx {α : Type} :
    ∀ (l : List α) (f : Nat) (x : α), l[f]? = some x →
      l.Perm (x :: l.eraseIdx f)
  | [], f, x, h => by simp at h
  | y :: l, 0, x, h => by
    simp at h
    subst h
    simp
  | y :: l, f + 1, x, h => by
    rw [List.eraseIdx_cons_succ]
    have := (perm_cons_eraseIdx l f x (by simpa using h)).cons y
    exact this.trans (List.Perm.swap x y _)

theorem reorder_queue_perm (q : List Member) (f t : Nat)
    (hf : f < q.length) (ht : t < q.length) :
    (reorder_queue q f t).Perm q := by
  unfold reorder_queue
  by_cases hft : f = t
  · simp [hft]
  · rw [if_neg hft]
    have hx : q[f]? = some q[f] := List.getElem?_eq_getElem hf
    rw [hx]
    have hlen : (q.eraseIdx f).length = q.length - 1 :=
      List.length_eraseIdx_of_lt hf
    have h1 : ((q.eraseIdx f).insertIdx t q[f]).Perm (q[f] :: q.eraseIdx f) :=
      perm_insertIdx _ t _ (by omega)
    exact h1.trans (perm_cons_eraseIdx q f q[f] hx).symm

theorem countTurn_reorder (q : List Member) (f t : Nat)
    (hf : f < q.length) (ht : t < q.length) :
    countTurn (reorder_queue q f t) = countTurn q := by
  have h := reorder_queue_perm q f t hf ht
  unfold countTurn
  exact (h.filter _).length_eq

/-! Lemmas about `swapPos` and `swapIdx`. -/

theorem swapPos_length {α : Type} (l : List α) (a b : Nat) :
    (swapPos l a b).length = l.length := by
  unfold swapPos
  cases l[a]? <;> cases l[b]? <;> simp

theorem swapIdx_lt (a b k n : Nat) (ha : a < n) (hb : b < n) (hk : k < n) :
    swapIdx a b k < n := by
  unfold swapIdx
  split_ifs <;> omega

theorem swapIdx_invol (a b k : Nat) : swapIdx a b (swapIdx a b k) = k := by
  unfold swapIdx
  split_ifs <;> omega

theorem swapIdx_eq_iff (a b k j : Nat) :
    swapIdx a b k = j ↔ k = swapIdx a b j := by
  constructor
  · intro h
    rw [← h, swapIdx_invol]
  · intro h
    rw [h, swapIdx_invol]

theorem swapPos_getElem {α : Type} (l : List α) (a b k : Nat)
    (ha : a < l.length) (hb : b < l.length) (hab : a ≠ b) :
    (swapPos l a b)[k]? = l[swapIdx a b k]? := by
  have hxa : l[a]? = some l[a] := List.getElem?_eq_getElem ha
  have hxb : l[b]? = some l[b] := List.getElem?_eq_getElem hb
  unfold swapPos
  rw [hxa, hxb]
  show ((l.set a l[b]).set b l[a])[k]? = l[swapIdx a b k]?
  unfold swapIdx
  by_cases hkb : k = b
  · subst hkb
    have hka : ¬ k = a := by omega
    rw [List.getElem?_set_self (by simpa using hb), if_neg hka, if_pos rfl]
    exact hxa.symm
  · rw [List.getElem?_set_ne (fun h => hkb h.symm)]
    by_cases hka : k = a
    · subst hka
      rw [List.getElem?_set_self ha, if_pos rfl]
      exact hxb.symm
    · rw [List.getElem?_set_ne (fun h => hka h.symm), if_neg hka, if_neg hkb]

theorem strip_swapPos (q : List Member) (a b : Nat) :
    strip (swapPos q a b) = swapPos (strip q) a b := by
  unfold swapPos
  cases hqa : q[a]? <;> cases hqb : q[b]? <;>
    simp [strip, List.getElem?_map, hqa, hqb]

theorem flagAt_swapPos_mkQueue (ms : List (Int × String)) (j a b k : Nat)
    (hj : j < ms.length) (ha : a < ms.length) (hb : b < ms.length)
    (hab : a ≠ b) :
    flagAt (swapPos (mkQueue ms j) a b) k = decide (k = swapIdx a b j) := by
  by_cases hk : k < ms.length
  · rw [flagAt, swapPos_getElem _ a b k (by rwa [mkQueue_length])
      (by rwa [mkQueue_length]) hab, mkQueue_getElem]
    have hsk : swapIdx a b k < ms.length := swapIdx_lt a b k ms.length ha hb hk
    rw [List.getElem?_eq_getElem hsk]
    simp [swapIdx_eq_iff a b k j]
  · rw [flagAt_oob _ _ (by rw [swapPos_length, mkQueue_length]; omega)]
    have hsj : swapIdx a b j < ms.length := swapIdx_lt a b j ms.length ha hb hj
    have : k ≠ swapIdx a b j := by omega
    simp [this]

theorem holderIdx_swapPos_mkQueue (ms : List (Int × String)) (j a b : Nat)
    (hj : j < ms.length) (ha : a < ms.length) (hb : b < ms.length)
    (hab : a ≠ b) :
    holderIdx? (swapPos (mkQueue ms j) a b) = some (swapIdx a b j) := by
  exact holderIdx_of_unique_flag _ _
    (by rw [swapPos_length, mkQueue_length]; exact swapIdx_lt a b j ms.length ha hb hj)
    (fun k => flagAt_swapPos_mkQueue ms j a b k hj ha hb hab)

theorem countTurn_swapPos_mkQueue (ms : List (Int × String)) (j a b : Nat)
    (hj : j < ms.length) (ha : a < ms.length) (hb : b < ms.length)
    (hab : a ≠ b) :
    countTurn (swapPos (mkQueue ms j) a b) = 1 := by
  rw [countTurn_swapPos _ a b hab (by rwa [mkQueue_length]) (by rwa [mkQueue_length])]
  exact countTurn_mkQueue ms j hj

/-! Characterizations of the `swap_users` handler. -/

theorem get_current_turn_of_holderIdx (q : List Member) (i : Nat)
    (hidx : holderIdx? q = some i) (hi : i < q.length) :
    get_current_turn q = some (q[i].user_id, q[i].name, i) := by
  unfold get_current_turn
  unfold holderIdx? at hidx
  rw [hidx]
  show (match q[i]? with
        | none => none
        | some m => some (m.user_id, m.name, i)) =
      some (q[i].user_id, q[i].name, i)
  rw [List.getElem?_eq_getElem hi]

theorem holderIdx_lt (q : List Member) (i : Nat)
    (hidx : holderIdx? q = some i) : i < q.length := by
  unfold holderIdx? at hidx
  rw [List.findIdx?_eq_some_iff_getElem] at hidx
  exact hidx.1

theorem swap_users_notMember (q : List Member) (uid : Int) (un : String)
    (chat : Int) (qn : String) (jobs : List (String × Nat)) (i : Nat)
    (hidx : holderIdx? q = some i)
    (hp : find_user_pos q uid = none) :
    swap_users q uid un chat qn jobs =
      ⟨q, jobs, false, false, [notMemberText], SwapOutcome.notMember⟩ := by
  have hi := holderIdx_lt q i hidx
  unfold swap_users
  rw [get_current_turn_of_holderIdx q i hidx hi, hp]

theorem swap_users_selfSwap (q : List Member) (uid : Int) (un : String)
    (chat : Int) (qn : String) (jobs : List (String × Nat)) (i : Nat)
    (hidx : holderIdx? q = some i)
    (hp : find_user_pos q uid = some i) :
    swap_users q uid un chat qn jobs =
      ⟨q, jobs, false, false, [selfSwapText un], SwapOutcome.selfSwap⟩ := by
  have hi := holderIdx_lt q i hidx
  unfold swap_users
  rw [get_current_turn_of_holderIdx q i hidx hi, hp]
  simp

/-- A valid substitution in closed form: the queue afterwards is the
member data of `q` with the turn flag at `(i + 1) % len`, with positions `i`
(the original holder) and `p` (the responder) exchanged. -/
theorem swap_users_valid (q : List Member) (uid : Int) (un : String)
    (chat : Int) (qn : String) (jobs : List (String × Nat)) (i p : Nat)
    (hq : countTurn q = 1) (hidx : holderIdx? q = some i)
    (hp : find_user_pos q uid = some p) (hne : i ≠ p) :
    swap_users q uid un chat qn jobs =
      ⟨swapPos (mkQueue (strip q) ((i + 1) % q.length)) i p,
       jobs.filter (fun x => x.1 ≠ resolvingKey qn chat), true,
       !(jobs.any (fun x => x.1 = resolvingKey qn chat)),
       [successText un (q.get ⟨i, holderIdx_lt q i hidx⟩).name qn],
       SwapOutcome.swapped⟩ := by
  obtain ⟨i2, hi2, hidx2, hrepr⟩ := repr_of_countTurn_one q hq
  have hii : i2 = i := by
    rw [hidx] at hidx2
    cases hidx2
    rfl
  subst hii
  have hi := holderIdx_lt q i2 hidx
  have hstep : setTurnAt (setTurnAt q i2 false) ((i2 + 1) % q.length) true =
      mkQueue (strip q) ((i2 + 1) % q.length) := by
    conv_lhs => rw [hrepr]
    rw [mkQueue, setTurnAt_setTurnAt, setTurnAt_blankQ_false, ← mkQueue,
      setTurnAt_length, blankQ_length, strip_length]
  unfold swap_users
  rw [get_current_turn_of_holderIdx q i2 hidx hi, hp]
  show (if i2 = p then
      ({ queue := q, jobs := jobs, persisted := false, cancelFailed := false,
         replies := [selfSwapText un],
         outcome := SwapOutcome.selfSwap } : SwapResult)
    else
      { queue :=
          swapPos (setTurnAt (setTurnAt q i2 false) ((i2 + 1) % q.length) true)
            i2 p,
        jobs := jobs.filter (fun x => x.1 ≠ resolvingKey qn chat),
        persisted := true,
        cancelFailed := !(jobs.any (fun x => x.1 = resolvingKey qn chat)),
        replies := [successText un q[i2].name qn],
        outcome := SwapOutcome.swapped }) = _
  rw [if_neg hne, hstep]
  simp only [List.get_eq_getElem]

theorem repr_eq (q : List Member) (i : Nat) (hq : countTurn q = 1)
    (hidx : holderIdx? q = some i) : q = mkQueue (strip q) i := by
  obtain ⟨i2, _, hidx2, hrepr⟩ := repr_of_countTurn_one q hq
  rw [hidx] at hidx2
  cases hidx2
  exact hrepr

theorem succ_mod_ne (i N : Nat) (hi : i < N) (hN : 2 ≤ N) :
    (i + 1) % N ≠ i := by
  by_cases h : i + 1 < N
  · rw [Nat.mod_eq_of_lt h]
    omega
  · have hiN : i + 1 = N := by omega
    rw [hiN, Nat.mod_self]
    omega

/-! The specification claims. -/

/-- C9: the turn-advancement step (clear `current_turn` at the holder index
`i`, set it at `(i + 1) % N`, resolve_conflict.py lines 200-202) is cyclic:
on a queue with exactly one holder a step never changes the member order,
and `N` steps return the turn marker to the original holder, restoring the
queue exactly. -/
theorem advance_cyclic (q : List Member) (hq : countTurn q = 1) :
    strip (advance q) = strip q ∧ advance^[q.length] q = q := by
  obtain ⟨i, hi, hidx, hrepr⟩ := repr_of_countTurn_one q hq
  have hlen : (strip q).length = q.length := strip_length q
  constructor
  · conv_lhs => rw [hrepr]
    rw [advance_mkQueue _ _ (by omega), strip_mkQueue]
  · conv_lhs => rw [hrepr]
    rw [advance_iterate_mkQueue _ _ _ (by omega), mkQueue_length, hlen,
      Nat.add_mod_right, Nat.mod_eq_of_lt hi, ← hrepr]

/-- C9 witness: the cyclic property evaluated on the Scenario A queue. -/
theorem advance_cyclic_witness :
    countTurn demoQ = 1 ∧
      (strip (advance demoQ) = strip demoQ ∧
        advance^[demoQ.length] demoQ = demoQ) :=
  ⟨by decide, advance_cyclic demoQ (by decide)⟩

/-- C2: on every queue with exactly one `current_turn` holder, each of the
three mutating operations — the advancement step, a successful substitution
through `swap_users`, and a reorder with in-range indices — again leaves
exactly one member with `current_turn = true`. -/
theorem single_turn_invariant (q : List Member) (hq : countTurn q = 1) :
    countTurn (advance q) = 1 ∧
    (∀ uid un chat qn jobs,
      (swap_users q uid un chat qn jobs).outcome = SwapOutcome.swapped →
      countTurn (swap_users q uid un chat qn jobs).queue = 1) ∧
    (∀ f t, f < q.length → t < q.length →
      countTurn (reorder_queue q f t) = 1) := by
  obtain ⟨i, hi, hidx, hrepr⟩ := repr_of_countTurn_one q hq
  have hlen : (strip q).length = q.length := strip_length q
  refine ⟨?_, ?_, ?_⟩
  · conv_lhs => rw [hrepr]
    rw [advance_mkQueue _ _ (by omega)]
    exact countTurn_mkQueue _ _ (Nat.mod_lt _ (by omega))
  · intro uid un chat qn jobs houtcome
    cases hfp : find_user_pos q uid with
    | none =>
      rw [swap_users_notMember q uid un chat qn jobs i hidx hfp] at houtcome
      simp at houtcome
    | some p =>
      by_cases hip : i = p
      · subst hip
        rw [swap_users_selfSwap q uid un chat qn jobs i hidx hfp] at houtcome
        simp at houtcome
      · rw [swap_users_valid q uid un chat qn jobs i p hq hidx hfp hip]
        obtain ⟨hplt, hpid⟩ := find_user_pos_some q uid p hfp
        have hj : (i + 1) % q.length < (strip q).length := by
          rw [hlen]
          exact Nat.mod_lt _ (by omega)
        exact countTurn_swapPos_mkQueue _ _ _ _ hj (by omega) (by omega) hip
  · intro f t hf ht
    rw [countTurn_reorder q f t hf ht]
    exact hq

/-- C2 witness: the invariant evaluated on the Scenario A queue. -/
theorem single_turn_invariant_witness :
    countTurn demoQ = 1 ∧
      (countTurn (advance demoQ) = 1 ∧
      (∀ uid un chat qn jobs,
        (swap_users demoQ uid un chat qn jobs).outcome = SwapOutcome.swapped →
        countTurn (swap_users demoQ uid un chat qn jobs).queue = 1) ∧
      (∀ f t, f < demoQ.length → t < demoQ.length →
        countTurn (reorder_queue demoQ f t) = 1)) :=
  ⟨by decide, single_turn_invariant demoQ (by decide)⟩

/-- C10: `reorder_queue` moves whole member documents, so the multiset of
`current_turn` flags (indeed of whole documents) is untouched; with equal
indices it is the identity on the queue, and with distinct in-range indices
it is exactly pop at `from_position` followed by insert at `to_position`. -/
theorem reorder_frame (q : List Member) (f t : Nat) (hf : f < q.length)
    (ht : t < q.length) :
    reorder_queue q t t = q ∧
    (reorder_queue q f t).Perm q ∧
    ((reorder_queue q f t).map Member.current_turn).Perm
      (q.map Member.current_turn) ∧
    (f ≠ t → reorder_queue q f t =
      (q.eraseIdx f).insertIdx t (q.get ⟨f, hf⟩)) := by
  refine ⟨by simp [reorder_queue], reorder_queue_perm q f t hf ht,
    (reorder_queue_perm q f t hf ht).map Member.current_turn, ?_⟩
  intro hft
  unfold reorder_queue
  rw [if_neg hft, List.getElem?_eq_getElem hf]
  simp only [List.get_eq_getElem]

/-- C10 witness: a reorder on the Scenario A queue. -/
theorem reorder_frame_witness :
    (0 < demoQ.length ∧ 2 < demoQ.length) ∧
      (reorder_queue demoQ 2 2 = demoQ ∧
      (reorder_queue demoQ 0 2).Perm demoQ ∧
      ((reorder_queue demoQ 0 2).map Member.current_turn).Perm
        (demoQ.map Member.current_turn) ∧
      (0 ≠ 2 → reorder_queue demoQ 0 2 =
        (demoQ.eraseIdx 0).insertIdx 2 (demoQ.get ⟨0, by decide⟩))) :=
  ⟨⟨by decide, by decide⟩, reorder_frame demoQ 0 2 (by decide) (by decide)⟩

/-- C4: the fallback path never touches the queue array or any turn flag —
the queue, every flag and the holder lookup are unchanged — and the firing
appends exactly one skip notice, naming the still-assigned holder and the
queue, to the group messages (a date-trigger job runs once and is dropped
from the store). -/
theorem timeout_frame (st : SysState) (key user_name queue_name : String) :
    (timeout_fire st key user_name queue_name).queue = st.queue ∧
    (∀ k, flagAt (timeout_fire st key user_name queue_name).queue k =
      flagAt st.queue k) ∧
    get_current_turn (timeout_fire st key user_name queue_name).queue =
      get_current_turn st.queue ∧
    (timeout_fire st key user_name queue_name).groupTexts =
      st.groupTexts ++ [skipText user_name queue_name] :=
  ⟨rfl, fun _ => rfl, rfl, rfl⟩

theorem inform_and_resolve_none (now : Nat) (reason user_name : String)
    (conv : ConvState) (jobs : List (String × Nat)) :
    inform_and_resolve now reason user_name none conv jobs =
      ⟨conv, jobs, [noChannelText], []⟩ := rfl

theorem inform_and_resolve_some (now : Nat) (reason user_name : String)
    (chat : Int) (conv : ConvState) (jobs : List (String × Nat)) (qn : String)
    (hqn : lookupStore conv.store "queue_name" = some qn) :
    inform_and_resolve now reason user_name (some chat) conv jobs =
      ⟨⟨Phase.idle, []⟩,
       add_job_replace jobs (resolvingKey qn chat) (get_later_time now),
       [thankYouText], [escalationText user_name qn reason]⟩ := by
  unfold inform_and_resolve
  show (match lookupStore conv.store "queue_name" with
        | none => (⟨conv, jobs, [], []⟩ : InformResult)
        | some queue_name =>
          ⟨⟨Phase.idle, []⟩,
           add_job_replace jobs (resolvingKey queue_name chat)
             (get_later_time now),
           [thankYouText], [escalationText user_name queue_name reason]⟩) = _
  rw [hqn]

theorem countKey_add_job_replace (jobs : List (String × Nat)) (key : String)
    (d : Nat) : countKey (add_job_replace jobs key d) key = 1 := by
  unfold countKey add_job_replace
  rw [List.filter_cons, if_pos (by simp), List.filter_filter]
  have hnil :
      List.filter (fun a => decide (a.1 = key) && decide (a.1 ≠ key)) jobs
        = [] := by
    rw [List.filter_eq_nil_iff]
    intro a ha
    simp
  rw [hnil]
  rfl

theorem mem_add_job_replace (jobs : List (String × Nat)) (key : String)
    (d e : Nat) : (key, e) ∈ add_job_replace jobs key d ↔ e = d := by
  unfold add_job_replace
  simp [List.mem_filter]

theorem filter_add_job_replace_other (jobs : List (String × Nat))
    (key k : String) (d : Nat) (hk : k ≠ key) :
    (add_job_replace jobs key d).filter (fun x => x.1 = k) =
      jobs.filter (fun x => x.1 = k) := by
  unfold add_job_replace
  rw [List.filter_cons, if_neg (by simpa using fun h => hk h.symm),
    List.filter_filter]
  apply List.filter_congr
  intro a ha
  by_cases hak : a.1 = k
  · have hane : a.1 ≠ key := by rw [hak]; exact hk
    simp [hak, hane]
    exact hk
  · simp [hak]

/-- C5: receiving the reason arms the fallback job under the id built from
the queue name and the team group chat, due `HOURS = 2` hours (120 minutes)
after the reason arrives; arming uses `replace_existing=True`, so a live job
under the same id is replaced — afterwards exactly one job holds the key,
its run date is the fresh deadline, and jobs under every other id are
untouched. -/
theorem arm_timer_unique (now : Nat) (reason user_name : String) (chat : Int)
    (conv : ConvState) (jobs : List (String × Nat)) (qn : String)
    (hqn : lookupStore conv.store "queue_name" = some qn) :
    countKey
        (inform_and_resolve now reason user_name (some chat) conv jobs).jobs
        (resolvingKey qn chat) = 1 ∧
    (∀ d, (resolvingKey qn chat, d) ∈
        (inform_and_resolve now reason user_name (some chat) conv jobs).jobs ↔
        d = now + HOURS * 60) ∧
    (∀ k, k ≠ resolvingKey qn chat →
      (inform_and_resolve now reason user_name (some chat) conv jobs).jobs.filter
          (fun x => x.1 = k) =
        jobs.filter (fun x => x.1 = k)) := by
  rw [inform_and_resolve_some now reason user_name chat conv jobs qn hqn]
  refine ⟨countKey_add_job_replace jobs _ _, ?_, ?_⟩
  · intro d
    exact mem_add_job_replace jobs _ _ d
  · intro k hk
    exact filter_add_job_replace_other jobs _ k _ hk

/-- C5 witness: arming over a live job for the same key replaces it. -/
theorem arm_timer_unique_witness :
    lookupStore (⟨Phase.waiting_for_reason,
        [("queue_name", "cleaning")]⟩ : ConvState).store "queue_name" =
      some "cleaning" ∧
    (countKey
        (inform_and_resolve 0 "sick" "Ann" (some 7)
          ⟨Phase.waiting_for_reason, [("queue_name", "cleaning")]⟩
          [(resolvingKey "cleaning" 7, 50)]).jobs
        (resolvingKey "cleaning" 7) = 1 ∧
    (∀ d, (resolvingKey "cleaning" 7, d) ∈
        (inform_and_resolve 0 "sick" "Ann" (some 7)
          ⟨Phase.waiting_for_reason, [("queue_name", "cleaning")]⟩
          [(resolvingKey "cleaning" 7, 50)]).jobs ↔
        d = 0 + HOURS * 60) ∧
    (∀ k, k ≠ resolvingKey "cleaning" 7 →
      (inform_and_resolve 0 "sick" "Ann" (some 7)
          ⟨Phase.waiting_for_reason, [("queue_name", "cleaning")]⟩
          [(resolvingKey "cleaning" 7, 50)]).jobs.filter
          (fun x => x.1 = k) =
        [(resolvingKey "cleaning" 7, 50)].filter (fun x => x.1 = k))) :=
  ⟨by decide,
    arm_timer_unique 0 "sick" "Ann" 7
      ⟨Phase.waiting_for_reason, [("queue_name", "cleaning")]⟩
      [(resolvingKey "cleaning" 7, 50)] "cleaning" (by decide)⟩

/-- C7 (amended): when the initiator has no group chat the engine does not
escalate — nothing is broadcast, no fallback job is armed, the conversation
stays in the awaiting-reason state with the queue name still stored, and the
initiator is told to add the bot to a group and then send the reason again.
The reason text itself is not retained anywhere in the engine state. -/
theorem no_channel_no_escalation (now : Nat) (reason user_name : String)
    (conv : ConvState) (jobs : List (String × Nat))
    (hphase : conv.phase = Phase.waiting_for_reason)
    (hreason : ∀ p ∈ conv.store, p.2 ≠ reason) :
    (inform_and_resolve now reason user_name none conv jobs).groupMsgs = [] ∧
    (inform_and_resolve now reason user_name none conv jobs).jobs = jobs ∧
    (inform_and_resolve now reason user_name none conv jobs).conv = conv ∧
    (inform_and_resolve now reason user_name none conv jobs).conv.phase =
      Phase.waiting_for_reason ∧
    (inform_and_resolve now reason user_name none conv jobs).initiatorMsgs =
      [noChannelText] ∧
    (∀ p ∈ (inform_and_resolve now reason user_name none conv jobs).conv.store,
      p.2 ≠ reason) :=
  ⟨rfl, rfl, rfl, hphase, rfl, hreason⟩

/-- C7 witness: the no-channel path on a concrete awaiting-reason state. -/
theorem no_channel_no_escalation_witness :
    ((⟨Phase.waiting_for_reason, [("queue_name", "cleaning")]⟩ : ConvState).phase
        = Phase.waiting_for_reason ∧
      (∀ p ∈ (⟨Phase.waiting_for_reason,
          [("queue_name", "cleaning")]⟩ : ConvState).store, p.2 ≠ "sick")) ∧
    ((inform_and_resolve 0 "sick" "Ann" none
        ⟨Phase.waiting_for_reason, [("queue_name", "cleaning")]⟩ []).groupMsgs
        = [] ∧
      (inform_and_resolve 0 "sick" "Ann" none
        ⟨Phase.waiting_for_reason, [("queue_name", "cleaning")]⟩ []).jobs = [] ∧
      (inform_and_resolve 0 "sick" "Ann" none
          ⟨Phase.waiting_for_reason, [("queue_name", "cleaning")]⟩ []).conv =
        ⟨Phase.waiting_for_reason, [("queue_name", "cleaning")]⟩ ∧
      (inform_and_resolve 0 "sick" "Ann" none
          ⟨Phase.waiting_for_reason, [("queue_name", "cleaning")]⟩ []).conv.phase
        = Phase.waiting_for_reason ∧
      (inform_and_resolve 0 "sick" "Ann" none
          ⟨Phase.waiting_for_reason, [("queue_name", "cleaning")]⟩
          []).initiatorMsgs = [noChannelText] ∧
      (∀ p ∈ (inform_and_resolve 0 "sick" "Ann" none
          ⟨Phase.waiting_for_reason, [("queue_name", "cleaning")]⟩
          []).conv.store, p.2 ≠ "sick")) :=
  ⟨⟨by decide, by decide⟩,
    no_channel_no_escalation 0 "sick" "Ann"
      ⟨Phase.waiting_for_reason, [("queue_name", "cleaning")]⟩ []
      (by decide) (by decide)⟩

/-- C7 counterexample: the claim says the already-supplied reason is
retained for a later retry, but in a concrete no-channel run the supplied
reason "sick" appears nowhere in the engine state afterwards — the stored
conversation data still holds only the queue name and the initiator is asked
to send the reason again. -/
theorem no_channel_drops_reason :
    (inform_and_resolve 0 "sick" "Ann" none
        ⟨Phase.waiting_for_reason, [("queue_name", "cleaning")]⟩ []).conv.store
      = [("queue_name", "cleaning")] ∧
    ((inform_and_resolve 0 "sick" "Ann" none
        ⟨Phase.waiting_for_reason, [("queue_name", "cleaning")]⟩
        []).conv.store.all (fun p => p.2 ≠ "sick")) = true ∧
    (inform_and_resolve 0 "sick" "Ann" none
        ⟨Phase.waiting_for_reason, [("queue_name", "cleaning")]⟩ []).jobs
      = [] ∧
    (inform_and_resolve 0 "sick" "Ann" none
        ⟨Phase.waiting_for_reason, [("queue_name", "cleaning")]⟩ []).groupMsgs
      = [] ∧
    (inform_and_resolve 0 "sick" "Ann" none
        ⟨Phase.waiting_for_reason, [("queue_name", "cleaning")]⟩
        []).initiatorMsgs = [noChannelText] := by
  refine ⟨rfl, by decide, rfl, rfl, rfl⟩

theorem nodup_id_inj (q : List Member)
    (hnodup : (q.map Member.user_id).Nodup) (a b : Nat)
    (ha : a < q.length) (hb : b < q.length)
    (hid : q[a].user_id = q[b].user_id) : a = b := by
  have hinj := List.nodup_iff_injective_get.mp hnodup
  have hlen : (q.map Member.user_id).length = q.length := by simp
  have h1 : (q.map Member.user_id).get ⟨a, by omega⟩ =
      (q.map Member.user_id).get ⟨b, by omega⟩ := by
    simp only [List.get_eq_getElem, List.getElem_map]
    exact hid
  have h2 := hinj h1
  simpa using congrArg Fin.val h2

/-- C8: a valid substitution applies and persists the swap and sends the
success reply; the fallback job under the conflict key is removed when
present, and when it is already gone (the fallback fired first) the failed
cancellation is only recorded internally — the responder still receives the
success reply, never an error, and the swap is still applied and
persisted. -/
theorem cancel_tolerates_missing (q : List Member) (uid : Int) (un : String)
    (chat : Int) (qn : String) (jobs : List (String × Nat)) (i p : Nat)
    (hq : countTurn q = 1) (hidx : holderIdx? q = some i)
    (hp : find_user_pos q uid = some p) (hne : i ≠ p) :
    (swap_users q uid un chat qn jobs).persisted = true ∧
    (swap_users q uid un chat qn jobs).queue =
      swapPos (mkQueue (strip q) ((i + 1) % q.length)) i p ∧
    (swap_users q uid un chat qn jobs).replies =
      [successText un (q.get ⟨i, holderIdx_lt q i hidx⟩).name qn] ∧
    ((∀ d, (resolvingKey qn chat, d) ∉ jobs) →
      (swap_users q uid un chat qn jobs).cancelFailed = true ∧
      (swap_users q uid un chat qn jobs).jobs = jobs) ∧
    ((∃ d, (resolvingKey qn chat, d) ∈ jobs) →
      (swap_users q uid un chat qn jobs).cancelFailed = false ∧
      ∀ d, (resolvingKey qn chat, d) ∉ (swap_users q uid un chat qn jobs).jobs) := by
  rw [swap_users_valid q uid un chat qn jobs i p hq hidx hp hne]
  refine ⟨rfl, rfl, rfl, ?_, ?_⟩
  · intro habsent
    constructor
    · show (!(jobs.any (fun x => x.1 = resolvingKey qn chat))) = true
      have : jobs.any (fun x => x.1 = resolvingKey qn chat) = false := by
        rw [List.any_eq_false]
        intro x hx
        simp only [decide_eq_true_eq]
        intro hx1
        have hxpair : x = (resolvingKey qn chat, x.2) := by
          cases x
          simp only at hx1
          rw [hx1]
        rw [hxpair] at hx
        exact habsent x.2 hx
      rw [this]
      rfl
    · show jobs.filter (fun x => x.1 ≠ resolvingKey qn chat) = jobs
      rw [List.filter_eq_self]
      intro x hx
      simp only [decide_eq_true_eq]
      intro hx1
      have hxpair : x = (resolvingKey qn chat, x.2) := by
        cases x
        simp only at hx1
        rw [hx1]
      rw [hxpair] at hx
      exact habsent x.2 hx
  · rintro ⟨d, hd⟩
    constructor
    · show (!(jobs.any (fun x => x.1 = resolvingKey qn chat))) = false
      have : jobs.any (fun x => x.1 = resolvingKey qn chat) = true := by
        rw [List.any_eq_true]
        exact ⟨(resolvingKey qn chat, d), hd, by simp⟩
      rw [this]
      rfl
    · intro e he
      have := (List.mem_filter.mp he).2
      simp at this

/-- C8 witness: a valid substitution with the fallback job still stored and
one with it already fired. -/
theorem cancel_tolerates_missing_witness :
    (countTurn demoQ = 1 ∧ holderIdx? demoQ = some 0 ∧
      find_user_pos demoQ 2 = some 1 ∧ (0 : Nat) ≠ 1) ∧
    ((swap_users demoQ 2 "Bo" 7 "cleaning" []).persisted = true ∧
      (swap_users demoQ 2 "Bo" 7 "cleaning" []).queue =
        swapPos (mkQueue (strip demoQ) ((0 + 1) % demoQ.length)) 0 1 ∧
      (swap_users demoQ 2 "Bo" 7 "cleaning" []).replies =
        [successText "Bo" (demoQ.get ⟨0, by decide⟩).name "cleaning"] ∧
      ((∀ d, (resolvingKey "cleaning" 7, d) ∉ ([] : List (String × Nat))) →
        (swap_users demoQ 2 "Bo" 7 "cleaning" []).cancelFailed = true ∧
        (swap_users demoQ 2 "Bo" 7 "cleaning" []).jobs = []) ∧
      ((∃ d, (resolvingKey "cleaning" 7, d) ∈ ([] : List (String × Nat))) →
        (swap_users demoQ 2 "Bo" 7 "cleaning" []).cancelFailed = false ∧
        ∀ d, (resolvingKey "cleaning" 7, d) ∉
          (swap_users demoQ 2 "Bo" 7 "cleaning" []).jobs)) :=
  ⟨⟨by decide, by decide, by decide, by decide⟩,
    cancel_tolerates_missing demoQ 2 "Bo" 7 "cleaning" [] 0 1
      (by decide) (by decide) (by decide) (by decide)⟩

/-- C6: with pairwise-distinct user ids, a substitution attempt is accepted
exactly when the responder occurs in the queue array and is not the current
holder.  A responder missing from the array, or equal to the holder, is
rejected with only the corresponding message: the queue, the job store and
the persistence flag are untouched, so the conflict stays open and further
attempts are still accepted; in particular a responder equal to the current
holder is always rejected as a self-substitution. -/
theorem substitution_validity (q : List Member) (uid : Int) (un : String)
    (chat : Int) (qn : String) (jobs : List (String × Nat)) (i : Nat)
    (hq : countTurn q = 1) (hidx : holderIdx? q = some i)
    (hnodup : (q.map Member.user_id).Nodup) :
    ((swap_users q uid un chat qn jobs).outcome = SwapOutcome.swapped ↔
      uid ∈ q.map Member.user_id ∧
        (q.get ⟨i, holderIdx_lt q i hidx⟩).user_id ≠ uid) ∧
    (find_user_pos q uid = none →
      swap_users q uid un chat qn jobs =
        ⟨q, jobs, false, false, [notMemberText], SwapOutcome.notMember⟩) ∧
    ((q.get ⟨i, holderIdx_lt q i hidx⟩).user_id = uid →
      swap_users q uid un chat qn jobs =
        ⟨q, jobs, false, false, [selfSwapText un], SwapOutcome.selfSwap⟩) := by
  have hi := holderIdx_lt q i hidx
  refine ⟨?_, swap_users_notMember q uid un chat qn jobs i hidx, ?_⟩
  · constructor
    · intro houtcome
      cases hfp : find_user_pos q uid with
      | none =>
        rw [swap_users_notMember q uid un chat qn jobs i hidx hfp] at houtcome
        simp at houtcome
      | some p =>
        by_cases hip : i = p
        · subst hip
          rw [swap_users_selfSwap q uid un chat qn jobs i hidx hfp] at houtcome
          simp at houtcome
        · obtain ⟨hplt, hpid⟩ := find_user_pos_some q uid p hfp
          rw [List.getElem?_eq_getElem hplt] at hpid
          simp only [Option.map_some', Option.some.injEq] at hpid
          constructor
          · rw [List.mem_map]
            exact ⟨q[p], List.getElem_mem hplt, hpid⟩
          · intro hiduid
            refine hip (nodup_id_inj q hnodup i p hi hplt ?_)
            simp only [List.get_eq_getElem] at hiduid
            rw [hiduid, hpid]
    · rintro ⟨hmem, hnotholder⟩
      cases hfp : find_user_pos q uid with
      | none =>
        rw [find_user_pos_none_iff] at hfp
        rw [List.mem_map] at hmem
        obtain ⟨m, hm, hmid⟩ := hmem
        exact absurd hmid (hfp m hm)
      | some p =>
        obtain ⟨hplt, hpid⟩ := find_user_pos_some q uid p hfp
        rw [List.getElem?_eq_getElem hplt] at hpid
        simp only [Option.map_some', Option.some.injEq] at hpid
        have hip : i ≠ p := by
          intro h
          subst h
          exact hnotholder hpid
        rw [swap_users_valid q uid un chat qn jobs i p hq hidx hfp hip]
  · intro hiduid
    cases hfp : find_user_pos q uid with
    | none =>
      rw [find_user_pos_none_iff] at hfp
      exact absurd hiduid (hfp q[i] (List.getElem_mem hi))
    | some p =>
      obtain ⟨hplt, hpid⟩ := find_user_pos_some q uid p hfp
      rw [List.getElem?_eq_getElem hplt] at hpid
      simp only [Option.map_some', Option.some.injEq] at hpid
      have hip : i = p := by
        refine nodup_id_inj q hnodup i p hi hplt ?_
        simp only [List.get_eq_getElem] at hiduid
        rw [hiduid, hpid]
      subst hip
      exact swap_users_selfSwap q uid un chat qn jobs i hidx hfp

/-- C6 witness: validity on the Scenario A queue — Bo is accepted, an
outsider is rejected, and the holder Ann is rejected as self-substitution.
-/
theorem substitution_validity_witness :
    (countTurn demoQ = 1 ∧ holderIdx? demoQ = some 0 ∧
      (demoQ.map Member.user_id).Nodup) ∧
    (((swap_users demoQ 1 "Ann" 7 "cleaning" []).outcome = SwapOutcome.swapped ↔
        (1 : Int) ∈ demoQ.map Member.user_id ∧
          (demoQ.get ⟨0, by decide⟩).user_id ≠ 1) ∧
      (find_user_pos demoQ 1 = none →
        swap_users demoQ 1 "Ann" 7 "cleaning" [] =
          ⟨demoQ, [], false, false, [notMemberText], SwapOutcome.notMember⟩) ∧
      ((demoQ.get ⟨0, by decide⟩).user_id = 1 →
        swap_users demoQ 1 "Ann" 7 "cleaning" [] =
          ⟨demoQ, [], false, false, [selfSwapText "Ann"],
            SwapOutcome.selfSwap⟩)) :=
  ⟨⟨by decide, by decide, by decide⟩,
    substitution_validity demoQ 1 "Ann" 7 "cleaning" [] 0
      (by decide) (by decide) (by decide)⟩

/-- C1 (amended): on a valid substitution the member order becomes the
original order with the holder position `i` and the responder position `p`
exchanged, but the turn flag is a field of the member document: it is set on
the document at `j = (i + 1) % N` before the swap and travels with that
document through the swap.  The new holder index is therefore `j` whenever
`p ≠ j`, but `i` itself when `p = j` — in Scenario A (`i = 0`, `p = j = 1`)
the substitute Bo carries the flag into index 0 and holds the turn, not Ann.
In both cases the holding document is the one that sat at index `j` before
the swap. -/
theorem subst_pinned_semantics (q : List Member) (uid : Int) (un : String)
    (chat : Int) (qn : String) (jobs : List (String × Nat)) (i p : Nat)
    (hq : countTurn q = 1) (hidx : holderIdx? q = some i)
    (hp : find_user_pos q uid = some p) (hne : i ≠ p) :
    strip (swap_users q uid un chat qn jobs).queue = swapPos (strip q) i p ∧
    holderIdx? (swap_users q uid un chat qn jobs).queue =
      some (if p = (i + 1) % q.length then i else (i + 1) % q.length) ∧
    ((swap_users q uid un chat qn jobs).queue)[
        if p = (i + 1) % q.length then i else (i + 1) % q.length]? =
      (q[(i + 1) % q.length]?).map (fun m => { m with current_turn := true }) := by
  have hi := holderIdx_lt q i hidx
  obtain ⟨hplt, hpid⟩ := find_user_pos_some q uid p hp
  have hlen : (strip q).length = q.length := strip_length q
  have hN2 : 2 ≤ q.length := by omega
  have hjlt : (i + 1) % q.length < q.length := Nat.mod_lt _ (by omega)
  have hji : (i + 1) % q.length ≠ i := succ_mod_ne i q.length hi hN2
  have hswapidx : swapIdx i p ((i + 1) % q.length) =
      if p = (i + 1) % q.length then i else (i + 1) % q.length := by
    unfold swapIdx
    split_ifs <;> omega
  rw [swap_users_valid q uid un chat qn jobs i p hq hidx hp hne]
  refine ⟨?_, ?_, ?_⟩
  · show strip (swapPos (mkQueue (strip q) ((i + 1) % q.length)) i p) =
      swapPos (strip q) i p
    rw [strip_swapPos, strip_mkQueue]
  · show holderIdx? (swapPos (mkQueue (strip q) ((i + 1) % q.length)) i p) =
      some (if p = (i + 1) % q.length then i else (i + 1) % q.length)
    rw [holderIdx_swapPos_mkQueue _ _ _ _ (by omega) (by omega) (by omega) hne,
      hswapidx]
  · show (swapPos (mkQueue (strip q) ((i + 1) % q.length)) i p)[
        if p = (i + 1) % q.length then i else (i + 1) % q.length]? =
      (q[(i + 1) % q.length]?).map (fun m => { m with current_turn := true })
    rw [← hswapidx,
      swapPos_getElem _ i p _ (by rw [mkQueue_length]; omega)
        (by rw [mkQueue_length]; omega) hne,
      swapIdx_invol, mkQueue_getElem]
    conv_rhs => rw [repr_eq q i hq hidx, mkQueue_getElem]
    rw [mkQueue_length, hlen]
    cases hsq : (strip q)[(i + 1) % q.length]? with
    | none => rfl
    | some x => simp

/-- C1 witness: Scenario A through the amended statement — the order becomes
Bo, Ann, Cy and the holder index is 0 (Bo), the document that sat at index 1
before the swap. -/
theorem subst_pinned_semantics_witness :
    (countTurn demoQ = 1 ∧ holderIdx? demoQ = some 0 ∧
      find_user_pos demoQ 2 = some 1 ∧ (0 : Nat) ≠ 1) ∧
    (strip (swap_users demoQ 2 "Bo" 7 "cleaning" []).queue =
        swapPos (strip demoQ) 0 1 ∧
      holderIdx? (swap_users demoQ 2 "Bo" 7 "cleaning" []).queue =
        some (if 1 = (0 + 1) % demoQ.length then 0
          else (0 + 1) % demoQ.length) ∧
      ((swap_users demoQ 2 "Bo" 7 "cleaning" []).queue)[
          if 1 = (0 + 1) % demoQ.length then 0 else (0 + 1) % demoQ.length]? =
        (demoQ[(0 + 1) % demoQ.length]?).map
          (fun m => { m with current_turn := true })) :=
  ⟨⟨by decide, by decide, by decide, by decide⟩,
    subst_pinned_semantics demoQ 2 "Bo" 7 "cleaning" [] 0 1
      (by decide) (by decide) (by decide) (by decide)⟩

/-- C1 counterexample: in Scenario A (queue Ann-Bo-Cy, Ann holds the turn,
Bo substitutes) the code produces the order Bo, Ann, Cy as the claim says,
but the turn holder is Bo at index 0 — not Ann, the member at the slot after
the original holder's old index, as the claim pins. -/
theorem scenario_a_holder_is_bo :
    (swap_users demoQ 2 "Bo" 7 "cleaning" []).queue = demoSwapped ∧
    (swap_users demoQ 2 "Bo" 7 "cleaning" []).queue.map Member.name =
      ["Bo", "Ann", "Cy"] ∧
    get_current_turn (swap_users demoQ 2 "Bo" 7 "cleaning" []).queue =
      some (2, "Bo", 0) ∧
    ¬ get_current_turn (swap_users demoQ 2 "Bo" 7 "cleaning" []).queue =
      some (1, "Ann", 1) := by
  decide

/-- C3 (amended): the code keeps no conflict-record lock.  After the
fallback has fired there is no job left under the conflict key, yet a valid
substitution attempt arriving then is still accepted: the swap is applied
and persisted and the success reply is sent; the only trace of the race is
the internally recorded failed cancellation.  No AlreadyResolved no-op
exists in the code. -/
theorem post_timeout_attempt_applies (q : List Member) (uid : Int)
    (un : String) (chat : Int) (qn : String) (i p : Nat)
    (hq : countTurn q = 1) (hidx : holderIdx? q = some i)
    (hp : find_user_pos q uid = some p) (hne : i ≠ p) :
    (swap_users q uid un chat qn []).outcome = SwapOutcome.swapped ∧
    (swap_users q uid un chat qn []).queue =
      swapPos (mkQueue (strip q) ((i + 1) % q.length)) i p ∧
    (swap_users q uid un chat qn []).persisted = true ∧
    (swap_users q uid un chat qn []).cancelFailed = true ∧
    (swap_users q uid un chat qn []).replies =
      [successText un (q.get ⟨i, holderIdx_lt q i hidx⟩).name qn] := by
  rw [swap_users_valid q uid un chat qn [] i p hq hidx hp hne]
  exact ⟨rfl, rfl, rfl, rfl, rfl⟩

/-- C3 witness: a post-timeout substitution on the Scenario A queue. -/
theorem post_timeout_attempt_applies_witness :
    (countTurn demoQ = 1 ∧ holderIdx? demoQ = some 0 ∧
      find_user_pos demoQ 2 = some 1 ∧ (0 : Nat) ≠ 1) ∧
    ((swap_users demoQ 2 "Bo" 7 "cleaning" []).outcome =
        SwapOutcome.swapped ∧
      (swap_users demoQ 2 "Bo" 7 "cleaning" []).queue =
        swapPos (mkQueue (strip demoQ) ((0 + 1) % demoQ.length)) 0 1 ∧
      (swap_users demoQ 2 "Bo" 7 "cleaning" []).persisted = true ∧
      (swap_users demoQ 2 "Bo" 7 "cleaning" []).cancelFailed = true ∧
      (swap_users demoQ 2 "Bo" 7 "cleaning" []).replies =
        [successText "Bo" (demoQ.get ⟨0, by decide⟩).name "cleaning"]) :=
  ⟨⟨by decide, by decide, by decide, by decide⟩,
    post_timeout_attempt_applies demoQ 2 "Bo" 7 "cleaning" 0 1
      (by decide) (by decide) (by decide) (by decide)⟩

/-- C3 counterexample: end to end — the reason is escalated (arming the
fallback job), the deadline elapses and the fallback fires (the job store is
empty again), and then Bo presses the substitute button: the attempt is not
an AlreadyResolved no-op — the queue is mutated, persisted, and the success
reply is sent. -/
theorem late_substitution_still_swaps :
    (inform_and_resolve 0 "sick" "Ann" (some 7)
        ⟨Phase.waiting_for_reason, [("queue_name", "cleaning")]⟩ []).jobs =
      [(resolvingKey "cleaning" 7, 120)] ∧
    (timeout_fire
        ⟨demoQ,
          (inform_and_resolve 0 "sick" "Ann" (some 7)
            ⟨Phase.waiting_for_reason, [("queue_name", "cleaning")]⟩ []).jobs,
          [], []⟩
        (resolvingKey "cleaning" 7) "Ann" "cleaning").jobs = [] ∧
    (swap_users demoQ 2 "Bo" 7 "cleaning" []).outcome =
      SwapOutcome.swapped ∧
    ¬ (swap_users demoQ 2 "Bo" 7 "cleaning" []).queue = demoQ ∧
    (swap_users demoQ 2 "Bo" 7 "cleaning" []).persisted = true ∧
    (swap_users demoQ 2 "Bo" 7 "cleaning" []).replies =
      [successText "Bo" "Ann" "cleaning"] := by
  decide

end MaidBot
